import Mathlib

/-!
A shallow embedding of the CryptoKey package (Cyphrme/CryptoKey,
`cryptokey.go`) together with theorems settling the spec's claims.

Modelling conventions:
- Byte strings are `List Nat` (each entry one byte).
- Go's `crypto.PublicKey` / `crypto.PrivateKey` interface values are sum
  types whose constructors record the dynamic type stored, because the
  source dispatches on dynamic type via type assertions.
- The coze library (Algorithm Registry, `PadCon`, `Hash`) and the Go
  crypto primitives (`ecdsa`, `ed25519`) are external collaborators per the
  spec; registry tables and `padCon` are modelled from the spec's registry
  description, and the primitives are abstracted as a `Primitives`
  structure of total functions whose relevant contracts become explicit
  hypotheses of theorems.
- A Go panic in the repository's own code (slice out of bounds) is
  modelled by an `Option` layer: `none` is a panic; `some` is a normal
  return.
-/

set_option autoImplicit false

namespace CryptoKeySpec

/-- A byte string: each entry is one byte. -/
abbrev Bytes := List Nat

/-- Modelled from the spec: the coze `SEAlg` algorithm identifier.  The six
signing algorithms the source dispatches on, plus `UnknownAlg` standing for
any identifier whose `SigAlg()` is none of them (unrecognized algorithm). -/
inductive SEAlg where
  | ES224
  | ES256
  | ES384
  | ES512
  | Ed25519
  | Ed25519ph
  | UnknownAlg
deriving DecidableEq, Repr

/-- Modelled from the spec: the algorithm genus (family) from the registry. -/
inductive Genus where
  | Ecdsa
  | Eddsa
  | UnknownGenus
deriving DecidableEq, Repr

/-- Modelled from the spec: the elliptic curves of the registry. -/
inductive Curve where
  | P224
  | P256
  | P384
  | P521
  | Curve25519
  | NoCurve
deriving DecidableEq, Repr

/-- Modelled from the spec: hash functions bound to the algorithms. -/
inductive HashAlg where
  | SHA224
  | SHA256
  | SHA384
  | SHA512
  | UnknownHash
deriving DecidableEq, Repr

/-- Modelled from the spec: registry lookup `alg.Hash()`. -/
def hashAlg : SEAlg → HashAlg
  | .ES224 => .SHA224
  | .ES256 => .SHA256
  | .ES384 => .SHA384
  | .ES512 => .SHA512
  | .Ed25519 => .SHA512
  | .Ed25519ph => .SHA512
  | .UnknownAlg => .UnknownHash

/-- Modelled from the spec: hash digest byte size `Hash().Size()`. -/
def hashAlgSize : HashAlg → Nat
  | .SHA224 => 28
  | .SHA256 => 32
  | .SHA384 => 48
  | .SHA512 => 64
  | .UnknownHash => 0

/-- `alg.Hash().Size()`: the digest size the algorithm expects. -/
def hashSize (a : SEAlg) : Nat := hashAlgSize (hashAlg a)

/-- Modelled from the spec: registry lookup `alg.SigAlg().SigSize()`, the
fixed total signature byte size per algorithm. -/
def sigSize : SEAlg → Nat
  | .ES224 => 56
  | .ES256 => 64
  | .ES384 => 96
  | .ES512 => 132
  | .Ed25519 => 64
  | .Ed25519ph => 64
  | .UnknownAlg => 0

/-- Modelled from the spec: registry lookup `alg.XSize()`, the byte size of
the public coordinate field X of a key record. -/
def xSize : SEAlg → Nat
  | .ES224 => 56
  | .ES256 => 64
  | .ES384 => 96
  | .ES512 => 132
  | .Ed25519 => 32
  | .Ed25519ph => 32
  | .UnknownAlg => 0

/-- Modelled from the spec: registry lookup `alg.SigAlg().Genus()`. -/
def genus : SEAlg → Genus
  | .ES224 => .Ecdsa
  | .ES256 => .Ecdsa
  | .ES384 => .Ecdsa
  | .ES512 => .Ecdsa
  | .Ed25519 => .Eddsa
  | .Ed25519ph => .Eddsa
  | .UnknownAlg => .UnknownGenus

/-- Modelled from the spec: registry lookup `alg.Curve().EllipticCurve()`. -/
def curveOf : SEAlg → Curve
  | .ES224 => .P224
  | .ES256 => .P256
  | .ES384 => .P384
  | .ES512 => .P521
  | .Ed25519 => .Curve25519
  | .Ed25519ph => .Curve25519
  | .UnknownAlg => .NoCurve

/-- Modelled from the spec: `alg.String()`, the algorithm's display name. -/
def algString : SEAlg → String
  | .ES224 => "ES224"
  | .ES256 => "ES256"
  | .ES384 => "ES384"
  | .ES512 => "ES512"
  | .Ed25519 => "Ed25519"
  | .Ed25519ph => "Ed25519ph"
  | .UnknownAlg => "UnknownAlg"

/-- True exactly for the four ECDSA signing algorithms of the dispatch. -/
def isEcdsaAlg : SEAlg → Bool
  | .ES224 | .ES256 | .ES384 | .ES512 => true
  | _ => false

/-- True exactly for the two EdDSA signing algorithms of the dispatch. -/
def isEddsaAlg : SEAlg → Bool
  | .Ed25519 | .Ed25519ph => true
  | _ => false

/-- Big-endian byte decoding, `big.Int.SetBytes`. -/
def fromBytesBE (bs : Bytes) : Nat := bs.foldl (fun acc b => acc * 256 + b) 0

/-- Minimal big-endian byte encoding, `big.Int.Bytes` (empty for zero). -/
def toBytesBE (n : Nat) : Bytes :=
  if h : n = 0 then [] else
    have : n / 256 < n := Nat.div_lt_self (Nat.pos_of_ne_zero h) (by omega)
    toBytesBE (n / 256) ++ [n % 256]

/-- Left-pad a byte string with zero bytes to length `n` (no-op when the
string is already at least `n` long). -/
def padTo (n : Nat) (bs : Bytes) : Bytes := List.replicate (n - bs.length) 0 ++ bs

/-- Modelled from the spec: `coze.PadCon r s size` — R and S each encoded
big-endian, left-padded to half the fixed signature size, concatenated. -/
def padCon (r s size : Nat) : Bytes :=
  padTo (size / 2) (toBytesBE r) ++ padTo (size / 2) (toBytesBE s)

/-- An `ecdsa.PublicKey` value: curve plus affine coordinates. -/
structure EcdsaPublicKey where
  curve : Curve
  x : Nat
  y : Nat
deriving DecidableEq, Repr

/-- An `ecdsa.PrivateKey` value: embedded public key plus scalar D. -/
structure EcdsaPrivateKey where
  pub : EcdsaPublicKey
  d : Nat
deriving DecidableEq, Repr

/-- The dynamic type stored in the `crypto.PublicKey` interface field. -/
inductive PublicVal where
  | ecdsaPub (k : EcdsaPublicKey)
  | ed25519Pub (bs : Bytes)
  | b64 (bs : Bytes)
  | noneVal
deriving DecidableEq, Repr

/-- The dynamic type stored in the `crypto.PrivateKey` interface field. -/
inductive PrivateVal where
  | ecdsaPriv (k : EcdsaPrivateKey)
  | ed25519Priv (bs : Bytes)
  | b64List (l : List Bytes)
  | noneVal
deriving DecidableEq, Repr

/-- The `CryptoKey` struct of `cryptokey.go`. -/
structure CryptoKey where
  Alg : SEAlg
  Public : PublicVal
  Private : PrivateVal
deriving DecidableEq, Repr

/-- True when the public value has the dynamic type `ecdsa.PublicKey`. -/
def isEcdsaPubShape : PublicVal → Bool
  | .ecdsaPub _ => true
  | _ => false

/-- True when the public value has the dynamic type `ed25519.PublicKey`. -/
def isEd25519PubShape : PublicVal → Bool
  | .ed25519Pub _ => true
  | _ => false

/-- True when the private value has the dynamic type `*ecdsa.PrivateKey`. -/
def isEcdsaPrivShape : PrivateVal → Bool
  | .ecdsaPriv _ => true
  | _ => false

/-- True when the private value has the dynamic type `ed25519.PrivateKey`. -/
def isEd25519PrivShape : PrivateVal → Bool
  | .ed25519Priv _ => true
  | _ => false

/-- The external crypto primitives (Go `crypto/ecdsa`, `crypto/ed25519`,
`coze.Hash`), abstracted as total functions per the spec's trust boundary.
`ecdsaSign` is fed the randomness outcome implicitly: a given `Primitives`
value fixes one outcome per (key, digest) pair, which suffices for the
claims, all of which quantify over the outcome. -/
structure Primitives where
  ecdsaSign : EcdsaPrivateKey → Bytes → Except String (Nat × Nat)
  ecdsaVerify : EcdsaPublicKey → Bytes → Nat → Nat → Bool
  ed25519Sign : Bytes → Bytes → Bytes
  ed25519Verify : Bytes → Bytes → Bytes → Bool
  hash : HashAlg → Bytes → Bytes

/-- The digest-length-mismatch error message built by `CryptoKey.Sign`. -/
def digestLenErrMsg (n : Nat) (a : SEAlg) : String :=
  "coze.enum: digest length does not match alg.hash.size. Len: " ++ Nat.repr n
    ++ ", Alg: " ++ algString a ++ "."

/-- `CryptoKey.Sign` of `cryptokey.go`: sign a precalculated digest. -/
def CryptoKey.Sign (P : Primitives) (c : CryptoKey) (digest : Bytes) :
    Except String Bytes :=
  if digest.length ≠ hashSize c.Alg then
    .error (digestLenErrMsg digest.length c.Alg)
  else
    match c.Alg with
    | .ES224 | .ES256 | .ES384 | .ES512 =>
      match c.Private with
      | .ecdsaPriv v =>
        match P.ecdsaSign v digest with
        | .error e => .error e
        | .ok (r, s) => .ok (padCon r s (sigSize c.Alg))
      | _ => .error "Not a valid ECDSA private key."
    | .Ed25519 | .Ed25519ph =>
      match c.Private with
      | .ed25519Priv v => .ok (P.ed25519Sign v digest)
      | _ => .error "Not a valid EdDSA private key"
    | .UnknownAlg => .error "coze.CryptoKey.Sign: Unknown Alg"

/-- `CryptoKey.Verify` of `cryptokey.go`.  `none` models a Go panic: in the
ECDSA branch the source slices `sig[:size]` and `sig[size:]` with
`size = SigSize/2` before any other check, which panics when the (non-empty)
signature is shorter than `size`. -/
def CryptoKey.Verify (P : Primitives) (c : CryptoKey) (digest sig : Bytes) :
    Option Bool :=
  if sig.length = 0 ∨ digest.length = 0 then
    some false
  else
    match c.Alg with
    | .ES224 | .ES256 | .ES384 | .ES512 =>
      let size := sigSize c.Alg / 2
      if size ≤ sig.length then
        let r := fromBytesBE (sig.take size)
        let s := fromBytesBE (sig.drop size)
        match c.Public with
        | .ecdsaPub v => some (P.ecdsaVerify v digest r s)
        | _ => some false
      else
        none
    | .Ed25519 | .Ed25519ph =>
      match c.Public with
      | .ed25519Pub v => some (P.ed25519Verify v digest sig)
      | _ => some false
    | .UnknownAlg => some false

/-- `CryptoKey.SignMsg` of `cryptokey.go`. -/
def CryptoKey.SignMsg (P : Primitives) (c : CryptoKey) (msg : Bytes) :
    Except String Bytes :=
  c.Sign P (P.hash (hashAlg c.Alg) msg)

/-- `CryptoKey.VerifyMsg` of `cryptokey.go`. -/
def CryptoKey.VerifyMsg (P : Primitives) (c : CryptoKey) (msg sig : Bytes) :
    Option Bool :=
  c.Verify P (P.hash (hashAlg c.Alg) msg) sig

/-- One outcome of the secure random source consumed by `NewCryptoKey`:
what `ed25519.GenerateKey` and `ecdsa.GenerateKey` return on this draw. -/
structure RandSource where
  ed25519Gen : Except String (Bytes × Bytes)
  ecdsaGen : Curve → Except String EcdsaPrivateKey

/-- `NewCryptoKey` of `cryptokey.go`, with the random draw made explicit. -/
def NewCryptoKey (R : RandSource) (alg : SEAlg) : Except String CryptoKey :=
  match alg with
  | .Ed25519 | .Ed25519ph =>
    match R.ed25519Gen with
    | .error e => .error e
    | .ok (pub, priv) => .ok ⟨alg, .ed25519Pub pub, .ed25519Priv priv⟩
  | .ES224 | .ES256 | .ES384 | .ES512 =>
    match R.ecdsaGen (curveOf alg) with
    | .error e => .error e
    | .ok k => .ok ⟨alg, .ecdsaPub k.pub, .ecdsaPriv k⟩
  | .UnknownAlg => .error "coze.NewCryptoKey: Unknown Alg"

/-- The coze key record consumed by `ToCryptoKey`: algorithm identifier,
public coordinate bytes X, private scalar/seed bytes D. -/
structure CozeKey where
  Alg : SEAlg
  X : Bytes
  D : Bytes
deriving DecidableEq, Repr

/-- `edDSACozeKeyToCryptoKey` of `cryptokey.go`, modelled exactly: the
source builds `b := make([]coze.B64, 64)` (64 zero-value byte strings) and
`d := append(b, ck.D, ck.X)` (appending D and X as two further list
elements), storing the resulting `[]coze.B64` in `Private` and the
`coze.B64` value `ck.X` in `Public`. -/
def edDSACozeKeyToCryptoKey (ck : CozeKey) : CryptoKey :=
  ⟨ck.Alg, .b64 ck.X, .b64List (List.replicate 64 [] ++ [ck.D, ck.X])⟩

/-- `ecDSACozeKeyToCryptoKey` of `cryptokey.go`.  `none` models the Go
panic of `ck.X[:half]` / `ck.X[half:]` when `len(ck.X) < half` with
`half = ck.Alg.XSize()/2`. -/
def ecDSACozeKeyToCryptoKey (ck : CozeKey) : Option CryptoKey :=
  let half := xSize ck.Alg / 2
  if half ≤ ck.X.length then
    let x := fromBytesBE (ck.X.take half)
    let y := fromBytesBE (ck.X.drop half)
    let ec : EcdsaPublicKey := ⟨curveOf ck.Alg, x, y⟩
    if ck.D.length = 0 then
      some ⟨ck.Alg, .ecdsaPub ec, .noneVal⟩
    else
      some ⟨ck.Alg, .ecdsaPub ec, .ecdsaPriv ⟨ec, fromBytesBE ck.D⟩⟩
  else
    none

/-- `ToCryptoKey` of `cryptokey.go`.  The outer `Option` models a panic
inside the ECDSA branch; `Except` carries the returned error. -/
def ToCryptoKey (ck : CozeKey) : Option (Except String CryptoKey) :=
  if ck.X.length = 0 then
    some (.error "coze: invalid CozeKey")
  else
    match genus ck.Alg with
    | .Ecdsa => (ecDSACozeKeyToCryptoKey ck).map .ok
    | .Eddsa => some (.ok (edDSACozeKeyToCryptoKey ck))
    | .UnknownGenus => some (.error ("unsupported alg: " ++ algString ck.Alg))

/-! ### Byte-encoding lemmas -/

theorem foldl_be (a : Nat) (bs : Bytes) :
    bs.foldl (fun acc b => acc * 256 + b) a = a * 256 ^ bs.length + fromBytesBE bs := by
  induction bs generalizing a with
  | nil => simp [fromBytesBE]
  | cons hd tl ih =>
    simp only [List.foldl_cons, List.length_cons, fromBytesBE]
    rw [ih (a * 256 + hd), ih (0 * 256 + hd)]
    ring

theorem fromBytesBE_append (u v : Bytes) :
    fromBytesBE (u ++ v) = fromBytesBE u * 256 ^ v.length + fromBytesBE v := by
  unfold fromBytesBE
  rw [List.foldl_append]
  exact foldl_be _ v

theorem fromBytesBE_replicate_zero (k : Nat) :
    fromBytesBE (List.replicate k 0) = 0 := by
  induction k with
  | zero => rfl
  | succ n ih =>
    simp only [List.replicate_succ, fromBytesBE, List.foldl_cons] at *
    simpa using ih

theorem fromBytesBE_padTo (n : Nat) (bs : Bytes) :
    fromBytesBE (padTo n bs) = fromBytesBE bs := by
  unfold padTo
  rw [fromBytesBE_append, fromBytesBE_replicate_zero]
  simp

theorem padTo_length (n : Nat) (bs : Bytes) (h : bs.length ≤ n) :
    (padTo n bs).length = n := by
  simp [padTo]
  omega

theorem fromBytesBE_toBytesBE (n : Nat) : fromBytesBE (toBytesBE n) = n := by
  induction n using Nat.strong_induction_on with
  | _ n ih =>
    rw [toBytesBE]
    by_cases h : n = 0
    · simp [h, fromBytesBE]
    · simp only [h, dite_false]
      rw [fromBytesBE_append]
      have hdiv : n / 256 < n := Nat.div_lt_self (Nat.pos_of_ne_zero h) (by omega)
      rw [ih (n / 256) hdiv]
      simp [fromBytesBE]
      omega

theorem toBytesBE_length_le (k n : Nat) (h : n < 256 ^ k) :
    (toBytesBE n).length ≤ k := by
  induction k generalizing n with
  | zero =>
    have : n = 0 := by simpa using h
    simp [this, toBytesBE]
  | succ k ih =>
    rw [toBytesBE]
    by_cases h0 : n = 0
    · simp [h0]
    · simp only [h0, dite_false, List.length_append, List.length_cons,
        List.length_nil]
      have hlt : n / 256 < 256 ^ k := by
        rw [Nat.div_lt_iff_lt_mul (by omega)]
        calc n < 256 ^ (k + 1) := h
        _ = 256 ^ k * 256 := by ring
      have := ih (n / 256) hlt
      omega

theorem take_append_of_length (u v : Bytes) (n : Nat) (h : u.length = n) :
    (u ++ v).take n = u := by
  subst h
  exact List.take_left u v

theorem drop_append_of_length (u v : Bytes) (n : Nat) (h : u.length = n) :
    (u ++ v).drop n = v := by
  subst h
  exact List.drop_left u v

/-- Splitting a padded concatenation `padCon r s size` at `size / 2`
recovers `r` from the first half, provided `r` fits in `size / 2` bytes. -/
theorem padCon_take (r s size : Nat) (hr : r < 256 ^ (size / 2)) :
    fromBytesBE ((padCon r s size).take (size / 2)) = r := by
  unfold padCon
  rw [take_append_of_length _ _ _
    (padTo_length _ _ (toBytesBE_length_le _ _ hr))]
  rw [fromBytesBE_padTo, fromBytesBE_toBytesBE]

/-- Splitting a padded concatenation `padCon r s size` at `size / 2`
recovers `s` from the second half, provided `r` fits in `size / 2` bytes. -/
theorem padCon_drop (r s size : Nat) (hr : r < 256 ^ (size / 2)) :
    fromBytesBE ((padCon r s size).drop (size / 2)) = s := by
  unfold padCon
  rw [drop_append_of_length _ _ _
    (padTo_length _ _ (toBytesBE_length_le _ _ hr))]
  rw [fromBytesBE_padTo, fromBytesBE_toBytesBE]

/-- The length of a padded concatenation, when both halves fit. -/
theorem padCon_length (r s size : Nat) (hr : r < 256 ^ (size / 2))
    (hs : s < 256 ^ (size / 2)) :
    (padCon r s size).length = size / 2 + size / 2 := by
  unfold padCon
  rw [List.length_append,
    padTo_length _ _ (toBytesBE_length_le _ _ hr),
    padTo_length _ _ (toBytesBE_length_le _ _ hs)]

/-! ### Helper definitions and lemmas for the claim theorems -/

/-- A concrete instance of the external primitives, used to evaluate the
model on concrete inputs. -/
def trivPrims : Primitives where
  ecdsaSign := fun _ _ => .ok (1, 1)
  ecdsaVerify := fun _ _ _ _ => true
  ed25519Sign := fun _ _ => List.replicate 64 1
  ed25519Verify := fun _ _ _ => true
  hash := fun h _ => List.replicate (hashAlgSize h) 0

/-- `leadsWith n l` holds when `n` is an initial segment of `l`. -/
def leadsWith : List Char → List Char → Bool
  | [], _ => true
  | _ :: _, [] => false
  | a :: as, b :: bs => a == b && leadsWith as bs

/-- `containsSeq n l` holds when `n` occurs contiguously inside `l`. -/
def containsSeq (n : List Char) : List Char → Bool
  | [] => leadsWith n []
  | b :: bs => leadsWith n (b :: bs) || containsSeq n bs

theorem leadsWith_append (n t : List Char) : leadsWith n (n ++ t) = true := by
  induction n with
  | nil => rfl
  | cons a as ih => simp [leadsWith, ih]

theorem containsSeq_of_parts (n a b : List Char) :
    containsSeq n (a ++ (n ++ b)) = true := by
  induction a with
  | nil =>
    simp only [List.nil_append]
    cases hnb : n ++ b with
    | nil =>
      have hn : n = [] := by
        cases n with
        | nil => rfl
        | cons x xs => simp at hnb
      simp [hn, containsSeq, leadsWith]
    | cons c cs =>
      rw [containsSeq, ← hnb, leadsWith_append]
      simp
  | cons x xs ih =>
    simp only [List.cons_append, containsSeq, List.append_eq, ih, Bool.or_true]

theorem string_toList_append (s t : String) :
    (s ++ t).toList = s.toList ++ t.toList := by
  cases s
  cases t
  rfl

/-- Inversion of a successful `Sign` for an ECDSA algorithm: the private
value had the `*ecdsa.PrivateKey` shape, the primitive returned some
`(r, s)`, the digest length matched, and the signature is `padCon r s`. -/
theorem sign_ok_ecdsa_inv (P : Primitives) (alg : SEAlg) (pub : PublicVal)
    (priv : PrivateVal) (digest sig : Bytes) (halg : isEcdsaAlg alg = true)
    (hsig : CryptoKey.Sign P ⟨alg, pub, priv⟩ digest = .ok sig) :
    ∃ k r s, priv = .ecdsaPriv k ∧ P.ecdsaSign k digest = .ok (r, s) ∧
      sig = padCon r s (sigSize alg) ∧ digest.length = hashSize alg := by
  by_cases hlen : digest.length = hashSize alg
  · cases alg <;> simp only [isEcdsaAlg] at halg <;>
      [skip; skip; skip; skip; exact absurd halg (by simp);
       exact absurd halg (by simp); exact absurd halg (by simp)] <;>
    · cases priv with
      | ecdsaPriv k =>
        simp only [CryptoKey.Sign, hlen] at hsig
        rcases hE : P.ecdsaSign k digest with e | rs
        · rw [hE] at hsig
          simp at hsig
        · obtain ⟨r, s⟩ := rs
          rw [hE] at hsig
          simp at hsig
          exact ⟨k, r, s, rfl, hE, hsig.symm, hlen⟩
      | ed25519Priv v => simp [CryptoKey.Sign, hlen] at hsig
      | b64List l => simp [CryptoKey.Sign, hlen] at hsig
      | noneVal => simp [CryptoKey.Sign, hlen] at hsig
  · simp [CryptoKey.Sign, hlen] at hsig

/-- Inversion of a successful `Sign` for an EdDSA algorithm: the private
value had the `ed25519.PrivateKey` shape and the signature is the
primitive's output. -/
theorem sign_ok_eddsa_inv (P : Primitives) (alg : SEAlg) (pub : PublicVal)
    (priv : PrivateVal) (digest sig : Bytes) (halg : isEddsaAlg alg = true)
    (hsig : CryptoKey.Sign P ⟨alg, pub, priv⟩ digest = .ok sig) :
    ∃ v, priv = .ed25519Priv v ∧ sig = P.ed25519Sign v digest ∧
      digest.length = hashSize alg := by
  by_cases hlen : digest.length = hashSize alg
  · cases alg <;> simp only [isEddsaAlg] at halg <;>
      [exact absurd halg (by simp); exact absurd halg (by simp);
       exact absurd halg (by simp); exact absurd halg (by simp);
       skip; skip; exact absurd halg (by simp)] <;>
    · cases priv with
      | ecdsaPriv k => simp [CryptoKey.Sign, hlen] at hsig
      | ed25519Priv v =>
        simp only [CryptoKey.Sign, hlen] at hsig
        simp at hsig
        exact ⟨v, rfl, hsig.symm, hlen⟩
      | b64List l => simp [CryptoKey.Sign, hlen] at hsig
      | noneVal => simp [CryptoKey.Sign, hlen] at hsig
  · simp [CryptoKey.Sign, hlen] at hsig

/-! ### Claim theorems -/

/-- C8: for every key and every message, `SignMsg msg` equals
`Sign (hash (alg's hash function) msg)` and `VerifyMsg msg sig` equals
`Verify (hash (alg's hash function) msg) sig`: the message layer is a pure
composition, with the hash function determined solely by the key's
algorithm identifier. -/
theorem c8_msg_layer_is_composition (P : Primitives) (c : CryptoKey)
    (msg sig : Bytes) :
    c.SignMsg P msg = c.Sign P (P.hash (hashAlg c.Alg) msg) ∧
    c.VerifyMsg P msg sig = c.Verify P (P.hash (hashAlg c.Alg) msg) sig :=
  ⟨rfl, rfl⟩

/-- C9: conversion of a key record with empty X fails with the
invalid-key-record error (for every algorithm, so before any
family-specific logic), and a non-empty-X record whose algorithm's genus is
neither ECDSA nor EdDSA fails with the unsupported-algorithm error naming
the algorithm; no key is returned in either case. -/
theorem c9_conversion_rejects (ck : CozeKey) :
    (ck.X = [] → ToCryptoKey ck = some (.error "coze: invalid CozeKey")) ∧
    (ck.X ≠ [] → genus ck.Alg = .UnknownGenus →
      ToCryptoKey ck = some (.error ("unsupported alg: " ++ algString ck.Alg))) := by
  constructor
  · intro h
    simp [ToCryptoKey, h]
  · intro h hg
    have hlen : ¬ ck.X.length = 0 := by simpa using h
    simp [ToCryptoKey, hlen, hg]

/-- Witness for C9 at concrete inputs: an ES256 record with empty X, and a
record with an unrecognized algorithm. -/
theorem c9_witness :
    ToCryptoKey ⟨.ES256, [], []⟩ = some (.error "coze: invalid CozeKey") ∧
    ToCryptoKey ⟨.UnknownAlg, [0], []⟩ =
      some (.error ("unsupported alg: " ++ algString .UnknownAlg)) :=
  ⟨(c9_conversion_rejects ⟨.ES256, [], []⟩).1 rfl,
   (c9_conversion_rejects ⟨.UnknownAlg, [0], []⟩).2 (by decide) rfl⟩

/-- C10: the EdDSA conversion branch always populates the private value
(the length-66 `[]coze.B64` list built from D and X), even when D is empty,
whereas the ECDSA branch leaves the private value absent when D is empty. -/
theorem c10_eddsa_always_private (ck ck2 : CozeKey)
    (hg : genus ck.Alg = .Eddsa) (hx : ck.X ≠ []) (hd2 : ck2.D = [])
    (hl2 : xSize ck2.Alg / 2 ≤ ck2.X.length) :
    ToCryptoKey ck = some (.ok (edDSACozeKeyToCryptoKey ck)) ∧
    (edDSACozeKeyToCryptoKey ck).Private =
      .b64List (List.replicate 64 [] ++ [ck.D, ck.X]) ∧
    (edDSACozeKeyToCryptoKey ck).Private ≠ .noneVal ∧
    Option.map CryptoKey.Private (ecDSACozeKeyToCryptoKey ck2) =
      some .noneVal := by
  refine ⟨?_, rfl, by simp [edDSACozeKeyToCryptoKey], ?_⟩
  · have hlen : ¬ ck.X.length = 0 := by simpa using hx
    simp [ToCryptoKey, hlen, hg]
  · simp [ecDSACozeKeyToCryptoKey, hl2, hd2]

/-- Witness for C10 at concrete inputs: an Ed25519 record with empty D
still yields a populated private value; an ES256 record with empty D yields
a public-only key. -/
theorem c10_witness :
    ToCryptoKey ⟨.Ed25519, [1], []⟩ =
      some (.ok (edDSACozeKeyToCryptoKey ⟨.Ed25519, [1], []⟩)) ∧
    (edDSACozeKeyToCryptoKey ⟨.Ed25519, [1], []⟩).Private =
      .b64List (List.replicate 64 [] ++ [[], [1]]) ∧
    (edDSACozeKeyToCryptoKey ⟨.Ed25519, [1], []⟩).Private ≠ .noneVal ∧
    Option.map CryptoKey.Private
      (ecDSACozeKeyToCryptoKey ⟨.ES256, List.replicate 64 1, []⟩) =
      some .noneVal :=
  c10_eddsa_always_private ⟨.Ed25519, [1], []⟩ ⟨.ES256, List.replicate 64 1, []⟩
    rfl (by decide) rfl (by decide)

/-- C7: for a key whose stored private value's dynamic shape does not match
the family declared by its algorithm identifier (including a missing
private value), `Sign` fails with the family's not-a-valid-private-key
error (stated for a digest of the declared size, since the digest-length
check runs first), so no signature is produced. -/
theorem c7_wrong_shape_sign_fails (P : Primitives) (c : CryptoKey)
    (digest : Bytes) (hlen : digest.length = hashSize c.Alg) :
    (isEcdsaAlg c.Alg = true → isEcdsaPrivShape c.Private = false →
      c.Sign P digest = .error "Not a valid ECDSA private key.") ∧
    (isEddsaAlg c.Alg = true → isEd25519PrivShape c.Private = false →
      c.Sign P digest = .error "Not a valid EdDSA private key") := by
  obtain ⟨alg, pub, priv⟩ := c
  constructor
  · intro ha hp
    cases alg <;> simp only [isEcdsaAlg] at ha <;> try simp at ha
    all_goals cases priv <;>
      simp_all [CryptoKey.Sign, isEcdsaPrivShape]
  · intro ha hp
    cases alg <;> simp only [isEddsaAlg] at ha <;> try simp at ha
    all_goals cases priv <;>
      simp_all [CryptoKey.Sign, isEd25519PrivShape]

/-- Witness for C7 at a concrete input: an ES256 key holding an
EdDSA-shaped private value refuses to sign. -/
theorem c7_witness :
    CryptoKey.Sign trivPrims
      ⟨.ES256, .noneVal, .ed25519Priv (List.replicate 64 0)⟩
      (List.replicate 32 0) = .error "Not a valid ECDSA private key." :=
  (c7_wrong_shape_sign_fails trivPrims
    ⟨.ES256, .noneVal, .ed25519Priv (List.replicate 64 0)⟩
    (List.replicate 32 0) (by decide)).1 rfl rfl

/-- C5 counterexample: at the concrete input of a 20-byte digest under
ES256 (expected size 32), `Sign` does return the digest-length-mismatch
error, but the message reports the actual length (20) and the algorithm
name only — the digits of the expected size (32) appear nowhere in it, so
the claim that the message reports both the actual and the expected sizes
is false. -/
theorem c5_counterexample :
    CryptoKey.Sign trivPrims ⟨.ES256, .noneVal, .noneVal⟩
      (List.replicate 20 0) = .error (digestLenErrMsg 20 .ES256) ∧
    containsSeq (Nat.repr 20).toList (digestLenErrMsg 20 .ES256).toList = true ∧
    containsSeq (Nat.repr (hashSize .ES256)).toList
      (digestLenErrMsg 20 .ES256).toList = false := by
  refine ⟨by rfl, by decide, by decide⟩

/-- C5 as amended: signing with a digest whose length differs from the
algorithm's declared hash output size fails (no signature bytes) with the
digest-length-mismatch error, whose message reports the actual size and
the algorithm's name (from which the expected size is determined), not the
expected size itself. -/
theorem c5_digest_mismatch_error_amended (P : Primitives) (c : CryptoKey)
    (digest : Bytes) (h : digest.length ≠ hashSize c.Alg) :
    c.Sign P digest = .error (digestLenErrMsg digest.length c.Alg) ∧
    containsSeq (Nat.repr digest.length).toList
      (digestLenErrMsg digest.length c.Alg).toList = true ∧
    containsSeq (algString c.Alg).toList
      (digestLenErrMsg digest.length c.Alg).toList = true := by
  have base : (digestLenErrMsg digest.length c.Alg).toList =
      "coze.enum: digest length does not match alg.hash.size. Len: ".toList
        ++ (Nat.repr digest.length).toList ++ ", Alg: ".toList
        ++ (algString c.Alg).toList ++ ".".toList := by
    simp only [digestLenErrMsg, string_toList_append]
  refine ⟨?_, ?_, ?_⟩
  · obtain ⟨alg, pub, priv⟩ := c
    simp only at h
    simp [CryptoKey.Sign, h]
  · rw [base]
    have h2 := containsSeq_of_parts (Nat.repr digest.length).toList
      "coze.enum: digest length does not match alg.hash.size. Len: ".toList
      (", Alg: ".toList ++ (algString c.Alg).toList ++ ".".toList)
    simp only [List.append_assoc] at h2 ⊢
    exact h2
  · rw [base]
    have h2 := containsSeq_of_parts (algString c.Alg).toList
      ("coze.enum: digest length does not match alg.hash.size. Len: ".toList
        ++ (Nat.repr digest.length).toList ++ ", Alg: ".toList)
      ".".toList
    simp only [List.append_assoc] at h2 ⊢
    exact h2

/-- Witness for C5 (amended) at a concrete input: a 20-byte digest under
ES384. -/
theorem c5_witness :
    CryptoKey.Sign trivPrims ⟨.ES384, .noneVal, .noneVal⟩
      (List.replicate 20 0) =
      .error (digestLenErrMsg (List.replicate 20 (0 : Nat)).length .ES384) ∧
    containsSeq (Nat.repr (List.replicate 20 (0 : Nat)).length).toList
      (digestLenErrMsg (List.replicate 20 (0 : Nat)).length .ES384).toList = true ∧
    containsSeq (algString .ES384).toList
      (digestLenErrMsg (List.replicate 20 (0 : Nat)).length .ES384).toList = true :=
  c5_digest_mismatch_error_amended trivPrims ⟨.ES384, .noneVal, .noneVal⟩
    (List.replicate 20 0) (by decide)

/-- C3: for every ECDSA-family algorithm and correctly-sized digest, a
successful `Sign` returns exactly the concatenation of R and S, each
encoded big-endian and left-padded with zeros to half the algorithm's
fixed signature size, so the signature length equals the fixed signature
size.  The bounds `hr`, `hs` are the external primitive's contract (R and S
are reduced modulo the curve order, which fits in half the signature
size). -/
theorem c3_ecdsa_fixed_width (P : Primitives) (c : CryptoKey)
    (digest : Bytes) (k : EcdsaPrivateKey) (r s : Nat)
    (halg : isEcdsaAlg c.Alg = true)
    (hpriv : c.Private = .ecdsaPriv k)
    (hlen : digest.length = hashSize c.Alg)
    (hsign : P.ecdsaSign k digest = .ok (r, s))
    (hr : r < 256 ^ (sigSize c.Alg / 2))
    (hs : s < 256 ^ (sigSize c.Alg / 2)) :
    c.Sign P digest =
      .ok (padTo (sigSize c.Alg / 2) (toBytesBE r) ++
        padTo (sigSize c.Alg / 2) (toBytesBE s)) ∧
    (padTo (sigSize c.Alg / 2) (toBytesBE r) ++
      padTo (sigSize c.Alg / 2) (toBytesBE s)).length = sigSize c.Alg := by
  obtain ⟨alg, pub, priv⟩ := c
  simp only at halg hpriv hlen hr hs ⊢
  subst hpriv
  constructor
  · cases alg <;> first
      | exact absurd halg (by decide)
      | simp [CryptoKey.Sign, hlen, hsign, padCon]
  · rw [List.length_append,
      padTo_length _ _ (toBytesBE_length_le _ _ hr),
      padTo_length _ _ (toBytesBE_length_le _ _ hs)]
    cases alg <;> first
      | exact absurd halg (by decide)
      | decide

/-- Witness for C3 at a concrete input: ES256 with a primitive outcome
R = S = 1, whose natural big-endian encoding is a single byte — the
signature is still two 32-byte zero-padded halves, 64 bytes in total. -/
theorem c3_witness :
    CryptoKey.Sign trivPrims
      ⟨.ES256, .noneVal, .ecdsaPriv ⟨⟨.P256, 0, 0⟩, 1⟩⟩
      (List.replicate 32 0) =
      .ok (padTo (sigSize .ES256 / 2) (toBytesBE 1) ++
        padTo (sigSize .ES256 / 2) (toBytesBE 1)) ∧
    (padTo (sigSize .ES256 / 2) (toBytesBE 1) ++
      padTo (sigSize .ES256 / 2) (toBytesBE 1)).length = sigSize .ES256 :=
  c3_ecdsa_fixed_width trivPrims
    ⟨.ES256, .noneVal, .ecdsaPriv ⟨⟨.P256, 0, 0⟩, 1⟩⟩
    (List.replicate 32 0) ⟨⟨.P256, 0, 0⟩, 1⟩ 1 1
    rfl rfl (by decide) rfl (by decide) (by decide)

/-- Evaluation of `Verify` in the ECDSA branch when the public value has
the `ecdsa.PublicKey` shape and the signature is long enough to slice. -/
theorem verify_ecdsa_eval (P : Primitives) (alg : SEAlg)
    (pub : EcdsaPublicKey) (priv : PrivateVal) (digest sig : Bytes)
    (halg : isEcdsaAlg alg = true) (hd : digest ≠ []) (hs0 : sig ≠ [])
    (hs : sigSize alg / 2 ≤ sig.length) :
    CryptoKey.Verify P ⟨alg, .ecdsaPub pub, priv⟩ digest sig =
      some (P.ecdsaVerify pub digest
        (fromBytesBE (sig.take (sigSize alg / 2)))
        (fromBytesBE (sig.drop (sigSize alg / 2)))) := by
  have hd' : ¬ digest.length = 0 := by simpa using hd
  have hs0' : ¬ sig.length = 0 := by simpa using hs0
  cases alg <;> first
    | exact absurd halg (by decide)
    | simp [CryptoKey.Verify, hd', hs0', hs]

/-- Evaluation of `Verify` in the EdDSA branch when the public value has
the `ed25519.PublicKey` shape. -/
theorem verify_eddsa_eval (P : Primitives) (alg : SEAlg) (pub : Bytes)
    (priv : PrivateVal) (digest sig : Bytes)
    (halg : isEddsaAlg alg = true) (hd : digest ≠ []) (hs0 : sig ≠ []) :
    CryptoKey.Verify P ⟨alg, .ed25519Pub pub, priv⟩ digest sig =
      some (P.ed25519Verify pub digest sig) := by
  have hd' : ¬ digest.length = 0 := by simpa using hd
  have hs0' : ¬ sig.length = 0 := by simpa using hs0
  cases alg <;> first
    | exact absurd halg (by decide)
    | simp [CryptoKey.Verify, hd', hs0']

/-- Inversion of a successful `NewCryptoKey` for an ECDSA algorithm. -/
theorem newCryptoKey_ecdsa_inv (R : RandSource) (alg : SEAlg)
    (c : CryptoKey) (halg : isEcdsaAlg alg = true)
    (h : NewCryptoKey R alg = .ok c) :
    ∃ k, R.ecdsaGen (curveOf alg) = .ok k ∧
      c = ⟨alg, .ecdsaPub k.pub, .ecdsaPriv k⟩ := by
  rcases hR : R.ecdsaGen (curveOf alg) with e | k
  · cases alg <;> first
      | exact absurd halg (by decide)
      | simp [NewCryptoKey, hR] at h
  · refine ⟨k, rfl, ?_⟩
    cases alg <;> first
      | exact absurd halg (by decide)
      | (simp only [NewCryptoKey, hR, Except.ok.injEq] at h; exact h.symm)

/-- Inversion of a successful `NewCryptoKey` for an EdDSA algorithm. -/
theorem newCryptoKey_eddsa_inv (R : RandSource) (alg : SEAlg)
    (c : CryptoKey) (halg : isEddsaAlg alg = true)
    (h : NewCryptoKey R alg = .ok c) :
    ∃ pub priv, R.ed25519Gen = .ok (pub, priv) ∧
      c = ⟨alg, .ed25519Pub pub, .ed25519Priv priv⟩ := by
  rcases hR : R.ed25519Gen with e | pp
  · cases alg <;> first
      | exact absurd halg (by decide)
      | simp [NewCryptoKey, hR] at h
  · obtain ⟨pub, priv⟩ := pp
    refine ⟨pub, priv, rfl, ?_⟩
    cases alg <;> first
      | exact absurd halg (by decide)
      | (simp only [NewCryptoKey, hR, Except.ok.injEq] at h; exact h.symm)

/-- C2: for every supported algorithm, every freshly generated key (both
components populated by `NewCryptoKey`) and every digest of the declared
hash size, a successful `Sign` produces a signature that `Verify` accepts.
The hypotheses on `P` and `R` are the external primitives' contracts: an
ECDSA signature verifies under the matching public key and its R, S fit in
half the signature size (they are reduced modulo the curve order); an
Ed25519 signature of a generated key pair verifies and is 64 bytes. -/
theorem c2_sign_verify_roundtrip (P : Primitives) (R : RandSource)
    (alg : SEAlg) (c : CryptoKey) (digest sig : Bytes)
    (hgen : NewCryptoKey R alg = .ok c)
    (hlen : digest.length = hashSize alg)
    (hsig : c.Sign P digest = .ok sig)
    (hecRound : ∀ k r s, P.ecdsaSign k digest = .ok (r, s) →
      P.ecdsaVerify k.pub digest r s = true)
    (hecBound : ∀ k r s, P.ecdsaSign k digest = .ok (r, s) →
      r < 256 ^ (sigSize alg / 2) ∧ s < 256 ^ (sigSize alg / 2))
    (hedRound : ∀ pub priv, R.ed25519Gen = .ok (pub, priv) →
      P.ed25519Verify pub digest (P.ed25519Sign priv digest) = true)
    (hedLen : ∀ priv, (P.ed25519Sign priv digest).length = 64) :
    c.Verify P digest sig = some true := by
  have hd : digest ≠ [] := by
    intro h
    rw [h] at hlen
    cases alg <;> simp [hashSize, hashAlg, hashAlgSize] at hlen <;>
      simp [NewCryptoKey] at hgen
  cases alg
  case UnknownAlg => simp [NewCryptoKey] at hgen
  case Ed25519 | Ed25519ph =>
    obtain ⟨pub, priv, hR, hc⟩ :=
      newCryptoKey_eddsa_inv R _ c (by decide) hgen
    subst hc
    obtain ⟨v, hv, hsig', hdl⟩ :=
      sign_ok_eddsa_inv P _ _ _ digest sig (by decide) hsig
    simp only [PrivateVal.ed25519Priv.injEq] at hv
    subst hv
    subst hsig'
    rw [verify_eddsa_eval P _ pub _ digest _ (by decide) hd
      (by have h64 := hedLen priv; intro h; rw [h] at h64; simp at h64)]
    rw [hedRound pub priv hR]
  case ES224 | ES256 | ES384 | ES512 =>
    obtain ⟨k, hR, hc⟩ := newCryptoKey_ecdsa_inv R _ c (by decide) hgen
    subst hc
    obtain ⟨k', r, s, hk', hE, hpad, hdl⟩ :=
      sign_ok_ecdsa_inv P _ _ _ digest sig (by decide) hsig
    simp only [PrivateVal.ecdsaPriv.injEq] at hk'
    subst hk'
    obtain ⟨hr, hs⟩ := hecBound k r s hE
    subst hpad
    have hplen := padCon_length r s _ hr hs
    rw [verify_ecdsa_eval P _ k.pub _ digest _ (by decide) hd
      (by intro h; rw [h] at hplen; simp [sigSize] at hplen)
      (by rw [hplen]; omega)]
    rw [padCon_take r s _ hr, padCon_drop r s _ hr]
    rw [hecRound k r s hE]

/-- Witness for C2 at a concrete input: an Ed25519 key pair from a fixed
random draw, signed and verified with concrete primitives. -/
theorem c2_witness :
    CryptoKey.Verify trivPrims
      ⟨.Ed25519, .ed25519Pub (List.replicate 32 0),
        .ed25519Priv (List.replicate 64 0)⟩
      (List.replicate 64 0) (List.replicate 64 1) = some true := by
  refine c2_sign_verify_roundtrip trivPrims
    ⟨.ok (List.replicate 32 0, List.replicate 64 0), fun _ => .error "e"⟩
    .Ed25519
    ⟨.Ed25519, .ed25519Pub (List.replicate 32 0),
      .ed25519Priv (List.replicate 64 0)⟩
    (List.replicate 64 0) (List.replicate 64 1)
    rfl (by decide) rfl ?_ ?_ ?_ ?_
  · intro k r s h
    rfl
  · intro k r s h
    have h' : ((1, 1) : Nat × Nat) = (r, s) := by simpa [trivPrims] using h
    cases h'
    exact ⟨by decide, by decide⟩
  · intro pub priv h
    rfl
  · intro priv
    rfl

/-- `Verify` short-circuits to false when the signature or digest is
empty. -/
theorem verify_empty (P : Primitives) (c : CryptoKey) (digest sig : Bytes)
    (h : sig.length = 0 ∨ digest.length = 0) :
    c.Verify P digest sig = some false := by
  simp only [CryptoKey.Verify]
  rw [if_pos h]

/-- C1 counterexample: a non-empty ECDSA signature shorter than half the
fixed signature size makes `Verify` slice out of range — a Go panic
(modelled `none`), not a boolean false — refuting the claim that malformed
too-short non-empty signatures yield false rather than an exception. -/
theorem c1_counterexample :
    CryptoKey.Verify trivPrims
      ⟨.ES256, .ecdsaPub ⟨.P256, 0, 0⟩, .noneVal⟩ [1] [1] = none := by
  rfl

/-- C1 as amended: `Verify` returns the boolean false (and does not raise)
for an empty digest, an empty signature, a wrong-shape or missing public
key, and an unrecognized algorithm; it never raises in the EdDSA or
unrecognized-algorithm branches, and in the ECDSA branch it does not raise
provided the non-empty signature is at least half the fixed signature size
long (shorter non-empty signatures panic, per the counterexample). -/
theorem c1_verify_false_not_raise_amended (P : Primitives) (c : CryptoKey)
    (digest sig : Bytes) :
    (digest = [] ∨ sig = [] → c.Verify P digest sig = some false) ∧
    (c.Alg = .UnknownAlg → c.Verify P digest sig = some false) ∧
    (isEcdsaAlg c.Alg = true → isEcdsaPubShape c.Public = false →
      sigSize c.Alg / 2 ≤ sig.length → c.Verify P digest sig = some false) ∧
    (isEddsaAlg c.Alg = true → isEd25519PubShape c.Public = false →
      c.Verify P digest sig = some false) ∧
    (isEddsaAlg c.Alg = true → (c.Verify P digest sig).isSome = true) ∧
    (c.Alg = .UnknownAlg → (c.Verify P digest sig).isSome = true) ∧
    (isEcdsaAlg c.Alg = true → sigSize c.Alg / 2 ≤ sig.length →
      (c.Verify P digest sig).isSome = true) := by
  refine ⟨?_, ?_, ?_, ?_, ?_, ?_, ?_⟩
  · intro h
    rcases h with h | h
    · exact verify_empty P c digest sig (Or.inr (by simp [h]))
    · exact verify_empty P c digest sig (Or.inl (by simp [h]))
  · intro h
    by_cases h0 : sig.length = 0 ∨ digest.length = 0
    · exact verify_empty P c digest sig h0
    · obtain ⟨alg, pub, priv⟩ := c
      simp only at h
      subst h
      simp [CryptoKey.Verify, h0]
  · intro ha hp hl
    by_cases h0 : sig.length = 0 ∨ digest.length = 0
    · exact verify_empty P c digest sig h0
    · obtain ⟨alg, pub, priv⟩ := c
      simp only at ha hp hl ⊢
      cases alg <;> first
        | exact absurd ha (by decide)
        | (cases pub <;> simp_all [CryptoKey.Verify, isEcdsaPubShape, sigSize])
  · intro ha hp
    by_cases h0 : sig.length = 0 ∨ digest.length = 0
    · exact verify_empty P c digest sig h0
    · obtain ⟨alg, pub, priv⟩ := c
      simp only at ha hp ⊢
      cases alg <;> first
        | exact absurd ha (by decide)
        | (cases pub <;> simp_all [CryptoKey.Verify, isEd25519PubShape])
  · intro ha
    obtain ⟨alg, pub, priv⟩ := c
    simp only at ha ⊢
    cases alg <;> first
      | exact absurd ha (by decide)
      | (simp only [CryptoKey.Verify]
         split
         · rfl
         · cases pub <;> rfl)
  · intro h
    by_cases h0 : sig.length = 0 ∨ digest.length = 0
    · rw [verify_empty P c digest sig h0]
      rfl
    · obtain ⟨alg, pub, priv⟩ := c
      simp only at h
      subst h
      simp [CryptoKey.Verify, h0]
  · intro ha hl
    by_cases h0 : sig.length = 0 ∨ digest.length = 0
    · rw [verify_empty P c digest sig h0]
      rfl
    · obtain ⟨alg, pub, priv⟩ := c
      simp only at ha hl ⊢
      cases alg <;> first
        | exact absurd ha (by decide)
        | (cases pub <;> simp_all [CryptoKey.Verify, sigSize])

/-- Witness for C1 (amended) at a concrete input: an Ed25519 key whose
public value has the wrong dynamic shape (a raw `coze.B64`, as the EdDSA
record conversion stores) yields false. -/
theorem c1_witness :
    CryptoKey.Verify trivPrims ⟨.Ed25519, .b64 [1], .noneVal⟩ [1] [1] =
      some false :=
  (c1_verify_false_not_raise_amended trivPrims
    ⟨.Ed25519, .b64 [1], .noneVal⟩ [1] [1]).2.2.2.1 rfl rfl

/-- C4 (code bug): the EdDSA record-to-key conversion does set the public
value to the X bytes, but the private value it builds is a 66-element list
of byte strings — 64 zero-value entries followed by D and X as list
elements (`make([]coze.B64, 64)` then `append(b, ck.D, ck.X)`) — not the
primitive's seed‖public byte-string layout; its dynamic type is not
`ed25519.PrivateKey`, so `Sign` rejects the converted key. -/
theorem c4_eddsa_conversion_unusable :
    edDSACozeKeyToCryptoKey
        ⟨.Ed25519, List.replicate 32 2, List.replicate 32 3⟩ =
      ⟨.Ed25519, .b64 (List.replicate 32 2),
        .b64List (List.replicate 64 [] ++
          [List.replicate 32 3, List.replicate 32 2])⟩ ∧
    isEd25519PrivShape (edDSACozeKeyToCryptoKey
      ⟨.Ed25519, List.replicate 32 2, List.replicate 32 3⟩).Private = false ∧
    CryptoKey.Sign trivPrims
      (edDSACozeKeyToCryptoKey
        ⟨.Ed25519, List.replicate 32 2, List.replicate 32 3⟩)
      (List.replicate 64 0) = .error "Not a valid EdDSA private key" :=
  ⟨rfl, rfl, by rfl⟩

/-- The C6 claim's wording of the ECDSA coordinate split: X split at
exactly half of X's own length (spec-following definition, for comparison
with `ecDSACozeKeyToCryptoKey`, which splits at `XSize/2`). -/
def claimSplitXAtHalfLength (X : Bytes) : Nat × Nat :=
  (fromBytesBE (X.take (X.length / 2)), fromBytesBE (X.drop (X.length / 2)))

/-- A 34-byte X used to separate the two split points under ES256. -/
def x6 : Bytes := 1 :: List.replicate 33 0

/-- C6 counterexample: for an ES256 record whose X is 34 bytes long, the
conversion splits at `XSize/2 = 32`, not at half of X's length (17): the
resulting x-coordinate is `256^31`, while the claim's split gives
`256^16`.  Moreover an X shorter than `XSize/2` panics (slice out of
range, modelled `none`) instead of producing the claim's key. -/
theorem c6_counterexample :
    ecDSACozeKeyToCryptoKey ⟨.ES256, x6, []⟩ =
      some ⟨.ES256, .ecdsaPub ⟨.P256, 256 ^ 31, 0⟩, .noneVal⟩ ∧
    (256 : Nat) ^ 31 ≠ (claimSplitXAtHalfLength x6).1 ∧
    ecDSACozeKeyToCryptoKey ⟨.ES256, [1, 1], []⟩ = none := by
  refine ⟨by decide, by decide, by decide⟩

/-- C6 as amended: for an ECDSA-genus record with non-empty X at least
`XSize/2` bytes long, the conversion splits X at exactly half the
algorithm's declared X size (`XSize/2`, which equals half of X's length
exactly for correctly sized records) into big-endian x and y forming the
public point on the algorithm's curve; a non-empty D is paired as the
private scalar with that point without any cross-validation against X, and
an empty D yields a public-only key. -/
theorem c6_ecdsa_conversion_amended (ck : CozeKey)
    (hg : genus ck.Alg = .Ecdsa) (hx : ck.X ≠ [])
    (hlen : xSize ck.Alg / 2 ≤ ck.X.length) :
    ToCryptoKey ck = some (.ok
      { Alg := ck.Alg
        Public := .ecdsaPub ⟨curveOf ck.Alg,
          fromBytesBE (ck.X.take (xSize ck.Alg / 2)),
          fromBytesBE (ck.X.drop (xSize ck.Alg / 2))⟩
        Private :=
          if ck.D = [] then .noneVal
          else .ecdsaPriv ⟨⟨curveOf ck.Alg,
            fromBytesBE (ck.X.take (xSize ck.Alg / 2)),
            fromBytesBE (ck.X.drop (xSize ck.Alg / 2))⟩,
            fromBytesBE ck.D⟩ }) := by
  have hx0 : ¬ ck.X.length = 0 := by simpa using hx
  by_cases hD : ck.D = []
  · have hD0 : ck.D.length = 0 := by simp [hD]
    simp [ToCryptoKey, hx0, hg, ecDSACozeKeyToCryptoKey, hlen, hD0, hD]
  · have hD0 : ¬ ck.D.length = 0 := by simpa using hD
    simp [ToCryptoKey, hx0, hg, ecDSACozeKeyToCryptoKey, hlen, hD0, hD]

/-- Witness for C6 (amended) at a concrete input: an ES256 record with a
64-byte X and a non-empty D. -/
theorem c6_witness :
    ToCryptoKey ⟨.ES256, List.replicate 64 1, [5]⟩ = some (.ok
      { Alg := .ES256
        Public := .ecdsaPub ⟨.P256,
          fromBytesBE ((List.replicate 64 (1 : Nat)).take 32),
          fromBytesBE ((List.replicate 64 (1 : Nat)).drop 32)⟩
        Private := .ecdsaPriv ⟨⟨.P256,
          fromBytesBE ((List.replicate 64 (1 : Nat)).take 32),
          fromBytesBE ((List.replicate 64 (1 : Nat)).drop 32)⟩,
          fromBytesBE [5]⟩ }) :=
  c6_ecdsa_conversion_amended ⟨.ES256, List.replicate 64 1, [5]⟩
    rfl (by decide) (by decide)

end CryptoKeySpec
